import Mathlib

/-!
Shallow embedding of `backend/services/employer_service.py`.

The service ingests chunked participant status logs (timestamp,
participantId, jobId) together with a static job reference table
(jobId, employerId, hourlyRate) and employer metadata, and derives
aggregate tables: employee counts, monthly turnover, job flows,
tenure, plus city-level roll-ups and payroll estimates, behind a
pickled unified-dataset cache.

Modelling conventions:
- timestamps are natural numbers counted in minutes; a calendar day is
  `minutesPerDay` minutes, so `pandas` day flooring is `ts / minutesPerDay`
  and `.dt.days` of a difference is division by `minutesPerDay`;
- the month label `strftime [percent]Y-[percent]m` of a timestamp is an
  abstract pure function `monthOf : Nat -> Nat` passed as a parameter;
- a blank / NaN jobId cell is `Option.none`; participant and employer
  ids are integers; monetary and averaged quantities are rationals
  (the Python floats never overflow in the claims considered, which are
  about the algebraic structure of the computations);
- the `job_to_employer` dictionary is a function `Int -> Option Int`;
- python dicts keyed by tuples are association lists.
-/

namespace EmployerService

/-- One row of a `ParticipantStatusLogs{i}.csv` chunk, restricted to the
columns the service reads. `job = none` models a blank / NaN jobId cell
(an unemployed observation). -/
structure RawRec where
  ts : Nat
  pid : Int
  job : Option Int
deriving DecidableEq

/-- A record after the turnover path's `fillna(-1).astype('int32')`
coding of the jobId column: NaN becomes the sentinel `-1`. -/
structure CRec where
  ts : Nat
  pid : Int
  job : Int
deriving DecidableEq

/-- Minutes per calendar day, the unit conversion behind `dt.floor('D')`
and `.dt.days`. -/
def minutesPerDay : Nat := 1440

/-- `df.sort_values('timestamp')`. -/
def sortRecs (l : List RawRec) : List RawRec :=
  List.insertionSort (fun a b => a.ts ≤ b.ts) l

/-- `df.dropna(subset=['jobId'])`: keep only records whose jobId cell is
present. -/
def employedRecs (c : List RawRec) : List RawRec :=
  c.filter (fun r => r.job.isSome)

/-- The `fillna(-1)` jobId coding applied to a (sorted) chunk. -/
def codeRecs (l : List RawRec) : List CRec :=
  l.map (fun r => ⟨r.ts, r.pid, r.job.getD (-1)⟩)

/-- One pass over a timestamp-sorted chunk, reproducing
`df['prev_jobId'] = df.groupby('participantId')['jobId'].shift(1)`
followed by filling the still-missing `prev_jobId` of each participant's
first row from `last_job_map`, selecting the rows where
`jobId != prev_jobId`, and `last_job_map.update(df.groupby(...).last())`.

Returns the list of changed rows as `(timestamp, prevJobId?, jobId)`
transitions, in row order, together with the updated `last_job_map`. -/
def walkStep (lastJob : Int → Option Int)
    (acc : List (Nat × Option Int × Int) × (Int → Option Int)) (r : CRec) :
    List (Nat × Option Int × Int) × (Int → Option Int) :=
  let prev : Option Int :=
    match acc.2 r.pid with
    | some j => some j
    | none => lastJob r.pid
  ((if prev = some r.job then acc.1 else acc.1 ++ [(r.ts, prev, r.job)]),
   fun p => if p = r.pid then some r.job else acc.2 p)

def walkChunk (lastJob : Int → Option Int) (rows : List CRec) :
    List (Nat × Option Int × Int) × (Int → Option Int) :=
  let res := rows.foldl (walkStep lastJob) ([], fun _ => none)
  (res.1, fun p => match res.2 p with | some j => some j | none => lastJob p)

/-- `None if (pd.isna(curr) or curr == -1) else job_to_employer.get(int(curr))`. -/
def resolveEmp (j2e : Int → Option Int) (j : Int) : Option Int :=
  if j = -1 then none else j2e j

/-- Employer resolution of a possibly-missing previous jobId
(`None if (pd.isna(prev) or prev == -1) else job_to_employer.get(int(prev))`). -/
def resolvePrev (j2e : Int → Option Int) : Option Int → Option Int
  | none => none
  | some j => resolveEmp j2e j

/-- One monthly turnover event row appended to `events` by
`_process_turnover`. -/
structure TEvent where
  month : Nat
  employerId : Int
  hires : Nat
  quits : Nat
  switches : Nat
deriving DecidableEq

/-- The event classification of one changed row in `_process_turnover`:
Hire, Quit, or Switch (a quit at the old employer plus a hire at the
new one). -/
def classifyTurnover (j2e : Int → Option Int) (monthOf : Nat → Nat)
    (t : Nat × Option Int × Int) : List TEvent :=
  let m := monthOf t.1
  match resolvePrev j2e t.2.1, resolveEmp j2e t.2.2 with
  | none, some e => [⟨m, e, 1, 0, 0⟩]
  | some e, none => [⟨m, e, 0, 1, 0⟩]
  | some a, some b =>
      if a = b then [] else [⟨m, a, 0, 1, 1⟩, ⟨m, b, 1, 0, 0⟩]
  | none, none => []

/-- Processing of one chunk inside `_process_turnover`'s streaming loop:
code the jobId column with the `-1` sentinel, sort by timestamp, detect
changed rows against the carried `last_job_map`, classify them into
events, and update the map. -/
def turnoverStep (j2e : Int → Option Int) (monthOf : Nat → Nat)
    (acc : List TEvent × (Int → Option Int)) (c : List RawRec) :
    List TEvent × (Int → Option Int) :=
  let w := walkChunk acc.2 (codeRecs (sortRecs c))
  (acc.1 ++ w.1.flatMap (classifyTurnover j2e monthOf), w.2)

/-- The full event stream of `_process_turnover` over all chunks, with
`last_job_map` carried across chunk boundaries. -/
def turnoverEvents (j2e : Int → Option Int) (monthOf : Nat → Nat)
    (chunks : List (List RawRec)) : List TEvent :=
  (chunks.foldl (turnoverStep j2e monthOf) ([], fun _ => none)).1

/-- One row of `employee_counts.csv`: distinct participants observed at
an employer on a date. -/
structure ECRow where
  date : Nat
  month : Nat
  employerId : Int
  employeeCount : Nat
deriving DecidableEq

/-- `employee_counts.groupby(['month','employerId'])['employeeCount'].mean()`
for one key, `none` when the key has no rows (so that the later left
merge leaves NaN). -/
def avgEmployeeCount (counts : List ECRow) (m : Nat) (e : Int) : Option ℚ :=
  match counts.filter (fun r => r.month = m ∧ r.employerId = e) with
  | [] => none
  | l => some (((l.map (fun r => r.employeeCount)).sum : ℚ) / l.length)

/-- `_calc_turnover`: `0.0` when the average employee count is NaN or
zero, otherwise `(hires + quits) / 2.0 / denom`. Total by construction:
an undefined denominator resolves to `0`, it never raises. -/
def calcTurnover (hires quits : Nat) (avg : Option ℚ) : ℚ :=
  match avg with
  | none => 0
  | some d => if d = 0 then 0 else ((hires : ℚ) + quits) / 2 / d

/-- One row of `turnover.csv`. -/
structure TRow where
  month : Nat
  employerId : Int
  hires : Nat
  quits : Nat
  netChange : Int
  turnoverRate : ℚ
deriving DecidableEq

/-- One grouped row of `evdf.groupby(['month','employerId']).sum()`
merged with the average employee count: the `(month, employerId)` key's
summed hires and quits, `net_change` and `turnoverRate`. -/
def turnoverRow (evs : List TEvent) (counts : List ECRow)
    (k : Nat × Int) : TRow :=
  let grp := evs.filter (fun ev => ev.month = k.1 ∧ ev.employerId = k.2)
  let h := (grp.map (fun ev => ev.hires)).sum
  let q := (grp.map (fun ev => ev.quits)).sum
  ⟨k.1, k.2, h, q, (h : Int) - (q : Int),
    calcTurnover h q (avgEmployeeCount counts k.1 k.2)⟩

/-- `_process_turnover`: reconstruct events, group them by
`(month, employerId)` summing hires and quits, left-merge the average
employee count and compute `net_change` and `turnoverRate`. -/
def processTurnover (j2e : Int → Option Int) (monthOf : Nat → Nat)
    (chunks : List (List RawRec)) (counts : List ECRow) : List TRow :=
  let evs := turnoverEvents j2e monthOf chunks
  ((evs.map (fun ev => (ev.month, ev.employerId))).dedup).map
    (turnoverRow evs counts)

/-- The transition filter of `_process_job_flows`'s row loop: skip rows
whose previous jobId is missing, resolve both jobIds through
`job_to_employer.get`, skip unresolved or equal employers, and record a
`(fromEmployer, toEmployer)` transition. -/
def collectFlow (j2e : Int → Option Int) (t : Nat × Option Int × Int) :
    List (Int × Int) :=
  match t.2.1 with
  | none => []
  | some p =>
      match j2e p, j2e t.2.2 with
      | some a, some b => if a = b then [] else [(a, b)]
      | _, _ => []

/-- One chunk of `_process_job_flows`'s streaming loop: drop NaN-jobId
rows, sort by timestamp, detect changed rows against the carried
`last_job_map`, collect employer-to-employer transitions, update the map. -/
def flowStep (j2e : Int → Option Int)
    (acc : List (Int × Int) × (Int → Option Int)) (c : List RawRec) :
    List (Int × Int) × (Int → Option Int) :=
  let w := walkChunk acc.2 (codeRecs (sortRecs (employedRecs c)))
  (acc.1 ++ w.1.flatMap (collectFlow j2e), w.2)

/-- All `(fromEmployer, toEmployer)` transitions recorded by
`_process_job_flows` across the chunk stream. -/
def flowTransitionPairs (j2e : Int → Option Int)
    (chunks : List (List RawRec)) : List (Int × Int) :=
  (chunks.foldl (flowStep j2e) ([], fun _ => none)).1

/-- One row of `job_flows.csv`. -/
structure FlowRow where
  fromEmployer : Int
  toEmployer : Int
  count : Nat
deriving DecidableEq

/-- `_process_job_flows`: record transitions, group them by
`(fromEmployer, toEmployer)` counting occurrences, and sort by count
descending. -/
def processJobFlows (j2e : Int → Option Int)
    (chunks : List (List RawRec)) : List FlowRow :=
  let pairs := flowTransitionPairs j2e chunks
  let rows := pairs.dedup.map (fun k =>
    (⟨k.1, k.2, (pairs.filter (fun p => p = k)).length⟩ : FlowRow))
  List.insertionSort (fun a b => b.count ≤ a.count) rows

/-- Total transition count recorded in a job-flow table for one ordered
employer pair: the `count` cells of the rows with that key (summed, so
the lookup is insensitive to row order; the built table has at most one
row per key). -/
def flowCount (table : List FlowRow) (a b : Int) : Nat :=
  ((table.filter (fun r => r.fromEmployer = a ∧ r.toEmployer = b)).map
    (fun r => r.count)).sum

/-- The Switch transitions of the paragraph-4.2 event classification
(the one `_process_turnover` implements): a changed row whose previous
and current observations both resolve to employers, and to different
ones. Returns the `(fromEmployer, toEmployer)` pair of each Switch. -/
def collectSwitch (j2e : Int → Option Int) (t : Nat × Option Int × Int) :
    List (Int × Int) :=
  match resolvePrev j2e t.2.1, resolveEmp j2e t.2.2 with
  | some a, some b => if a = b then [] else [(a, b)]
  | _, _ => []

/-- One chunk of the paragraph-4.2 reconstruction, restricted to its
Switch output: same sorting, sentinel coding, change detection and
`last_job_map` carry as `_process_turnover`. -/
def switchStep (j2e : Int → Option Int)
    (acc : List (Int × Int) × (Int → Option Int)) (c : List RawRec) :
    List (Int × Int) × (Int → Option Int) :=
  let w := walkChunk acc.2 (codeRecs (sortRecs c))
  (acc.1 ++ w.1.flatMap (collectSwitch j2e), w.2)

/-- All Switch transitions of the paragraph-4.2 classification over the
chunk stream. -/
def switchPairs (j2e : Int → Option Int)
    (chunks : List (List RawRec)) : List (Int × Int) :=
  (chunks.foldl (switchStep j2e) ([], fun _ => none)).1

/-- `_fill_missing_turnover_month`: with an empty employer universe,
return the month's turnover rows unchanged; otherwise produce, for every
employer of the universe, either its existing rows for the month or a
single zero-filled row. -/
def fillMissingTurnoverMonth (turnover : List TRow)
    (employerMeta : List Int) (month : Nat) : List TRow :=
  if employerMeta = [] then turnover.filter (fun r => r.month = month)
  else
    employerMeta.dedup.flatMap (fun e =>
      match (turnover.filter (fun r => r.month = month)).filter
          (fun r => r.employerId = e) with
      | [] => [⟨month, e, 0, 0, 0, 0⟩]
      | l => l)

/-- The `data` rows returned by `get_turnover_heatmap_data` when a month
is requested with `fill_missing=true`. -/
def getTurnoverHeatmapData (turnover : List TRow)
    (employerMeta : List Int) (month : Nat) : List TRow :=
  fillMissingTurnoverMonth turnover employerMeta month

/-- Association-list lookup, the embedding of a Python dict read. -/
def alookup {κ β : Type} [DecidableEq κ] (m : List (κ × β)) (k : κ) :
    Option β :=
  match m with
  | [] => none
  | (k1, v) :: t => if k1 = k then some v else alookup t k

/-- Association-list write `m[k] = v`: replace the binding in place or
append it, as a Python dict does. -/
def aupsert {κ β : Type} [DecidableEq κ] (m : List (κ × β)) (k : κ)
    (v : β) : List (κ × β) :=
  match m with
  | [] => [(k, v)]
  | (k1, v1) :: t => if k1 = k then (k, v) :: t else (k1, v1) :: aupsert t k v

/-- Minimum of a list of timestamps (`0` on the empty list, which the
callers never hit). -/
def minL : List Nat → Nat
  | [] => 0
  | x :: xs => xs.foldl min x

/-- Maximum of a list of timestamps. -/
def maxL : List Nat → Nat
  | [] => 0
  | x :: xs => xs.foldl max x

/-- `df.groupby(['participantId','jobId'])['timestamp'].agg(['min','max'])`
over one chunk whose NaN-jobId rows have been dropped. -/
def chunkSummary (c : List RawRec) : List ((Int × Int) × Nat × Nat) :=
  let emp := employedRecs c
  let keys := (emp.map (fun r => (r.pid, r.job.getD 0))).dedup
  keys.map (fun k =>
    let ts := (emp.filter
      (fun r => r.pid = k.1 ∧ r.job.getD 0 = k.2)).map (fun r => r.ts)
    (k, (minL ts, maxL ts)))

/-- Merging a chunk's partial `(min, max)` into the running value held in
`tenure_map`: `if ts_min < current_min` / `if ts_max > current_max`, or
plain insertion for a new key. -/
def mergeMM : Option (Nat × Nat) → Nat × Nat → Nat × Nat
  | none, p => p
  | some (a, b), (c, d) => (min a c, max b d)

/-- Folding one chunk's per-key summary into `tenure_map`. -/
def tenureChunkStep (m : List ((Int × Int) × Nat × Nat))
    (c : List RawRec) : List ((Int × Int) × Nat × Nat) :=
  (chunkSummary c).foldl
    (fun m kp => aupsert m kp.1 (mergeMM (alookup m kp.1) kp.2)) m

/-- `_process_tenure`'s streaming accumulation: the final
`tenure_map : (participantId, jobId) -> [min_ts, max_ts]`. -/
def processTenure (chunks : List (List RawRec)) :
    List ((Int × Int) × Nat × Nat) :=
  chunks.foldl tenureChunkStep []

/-- `(pd.to_datetime(max) - pd.to_datetime(min)).dt.days`: whole days
between the two observed timestamps. -/
def tenureDays (tmin tmax : Nat) : Int :=
  ((tmax : Int) - (tmin : Int)) / (minutesPerDay : Int)

/-- Median as pandas computes it on integers: middle element of the
sorted list, or the mean of the two middle elements. -/
def medianI (l : List Int) : ℚ :=
  let s := List.insertionSort (fun a b => a ≤ b) l
  if s.length = 0 then 0
  else if s.length % 2 = 1 then ((s.getD (s.length / 2) 0 : Int) : ℚ)
  else (((s.getD (s.length / 2 - 1) 0 + s.getD (s.length / 2) 0 : Int) : ℚ)) / 2

/-- Minimum of a list of integers (`0` on the empty list). -/
def minLI : List Int → Int
  | [] => 0
  | x :: xs => xs.foldl min x

/-- Maximum of a list of integers (`0` on the empty list). -/
def maxLI : List Int → Int
  | [] => 0
  | x :: xs => xs.foldl max x

/-- One row of `tenure.csv`. -/
structure TenureRow where
  employerId : Int
  medianTenure : ℚ
  avgTenure : ℚ
  minTenure : Int
  maxTenure : Int
deriving DecidableEq

/-- The tail of `_process_tenure`: turn `tenure_map` into per-pair
tenure days, resolve and keep only mapped employers, and summarize per
employer (median, mean, min, max). -/
def processTenureStats (j2e : Int → Option Int)
    (chunks : List (List RawRec)) : List TenureRow :=
  let grp := (processTenure chunks).filterMap (fun kp =>
    (j2e kp.1.2).map (fun e => (e, tenureDays kp.2.1 kp.2.2)))
  let keys := (grp.map (fun g => g.1)).dedup
  keys.map (fun e =>
    let ds := (grp.filter (fun g => g.1 = e)).map (fun g => g.2)
    ⟨e, medianI ds, ((ds.sum : Int) : ℚ) / ds.length,
      minLI ds, maxLI ds⟩)

/-- `_process_employee_counts` (semantics shared by both its paths):
resolve each employed observation to an employer, floor its timestamp to
a day, and count distinct participants per `(day, employer)`; the month
column is derived from the day. Rows are sorted by `(date, employerId)`. -/
def processEmployeeCounts (j2e : Int → Option Int) (monthOf : Nat → Nat)
    (chunks : List (List RawRec)) : List ECRow :=
  let obs := chunks.flatMap (fun c => c.filterMap (fun r =>
    r.job.bind (fun j => (j2e j).map
      (fun e => (r.ts / minutesPerDay, r.pid, e)))))
  let keys := (obs.map (fun o => (o.1, o.2.2))).dedup
  let rows := keys.map (fun k =>
    (⟨k.1, monthOf (k.1 * minutesPerDay), k.2,
      ((obs.filter (fun o => o.1 = k.1 ∧ o.2.2 = k.2)).map
        (fun o => o.2.1)).dedup.length⟩ : ECRow))
  List.insertionSort
    (fun a b => a.date < b.date ∨ (a.date = b.date ∧ a.employerId ≤ b.employerId))
    rows

/-- One row of `get_city_metrics`'s result. -/
structure CityRow where
  month : Nat
  avgTotalEmployment : ℚ
  totalHires : Nat
  totalQuits : Nat
  cityTurnoverRate : ℚ
deriving DecidableEq

/-- The daily total employment of one `(date, month)` key:
`emp_df.groupby(['date','month'])['employeeCount'].sum()` for that key. -/
def cityDaySum (counts : List ECRow) (k : Nat × Nat) : Nat :=
  ((counts.filter (fun r => r.date = k.1 ∧ r.month = k.2)).map
    (fun r => r.employeeCount)).sum

/-- The `daily_total` table of `get_city_metrics`: one
`(date, month, totalDailyEmployment)` triple per `(date, month)` key. -/
def cityDaily (counts : List ECRow) : List (Nat × Nat × Nat) :=
  ((counts.map (fun r => (r.date, r.month))).dedup).map
    (fun k => (k.1, k.2, cityDaySum counts k))

/-- The `monthly_emp` table: the mean of the daily totals per month. -/
def cityMonthlyEmp (counts : List ECRow) : List (Nat × ℚ) :=
  (((cityDaily counts).map (fun d => d.2.1)).dedup).map (fun m =>
    (m, (((((cityDaily counts).filter (fun d => d.2.1 = m)).map
        (fun d => d.2.2) : List Nat)).sum : ℚ) /
      (((((cityDaily counts).filter (fun d => d.2.1 = m)).map
        (fun d => d.2.2) : List Nat)).length : ℚ)))

/-- The `monthly_turnover` table: summed hires and quits per month. -/
def cityMonthlyT (turnover : List TRow) : List (Nat × Nat × Nat) :=
  ((turnover.map (fun r => r.month)).dedup).map (fun m =>
    (m, ((turnover.filter (fun r => r.month = m)).map (fun r => r.hires)).sum,
      ((turnover.filter (fun r => r.month = m)).map (fun r => r.quits)).sum))

/-- One output row of `get_city_metrics` for a month of the outer-merged
table: absent sides are filled with zero and a zero average resolves the
rate to `0.0`. -/
def cityRow (counts : List ECRow) (turnover : List TRow) (m : Nat) :
    CityRow :=
  let avg := (((cityMonthlyEmp counts).find? (fun p => p.1 = m)).map
    (fun p => p.2)).getD 0
  let th := (((cityMonthlyT turnover).find? (fun p => p.1 = m)).map
    (fun p => p.2.1)).getD 0
  let tq := (((cityMonthlyT turnover).find? (fun p => p.1 = m)).map
    (fun p => p.2.2)).getD 0
  ⟨m, avg, th, tq, if avg = 0 then 0 else ((th : ℚ) + (tq : ℚ)) / avg⟩

/-- `get_city_metrics`: sum employee counts per `(date, month)` into
daily totals, average the daily totals per month, sum hires and quits
per month, outer-merge the two monthly tables filling absences with
zero, and derive the city turnover rate (zero denominator resolves to
zero). Result sorted by month. -/
def getCityMetrics (counts : List ECRow) (turnover : List TRow) :
    List CityRow :=
  ((((cityDaily counts).map (fun d => d.2.1)).dedup ++
    (turnover.map (fun r => r.month)).dedup).dedup).map
      (cityRow counts turnover)
  |> List.insertionSort (fun a b => a.month ≤ b.month)

/-- One row of `Jobs.csv` as read from disk: the `hourlyRate` cell is
`none` when missing or non-numeric (what `pd.to_numeric(...,
errors='coerce')` turns into NaN). -/
structure RawJob where
  jobId : Int
  employerId : Int
  rateRaw : Option ℚ
deriving DecidableEq

/-- A loaded job row after `_load_jobs`'s cleaning. -/
structure Job where
  jobId : Int
  employerId : Int
  hourlyRate : ℚ
deriving DecidableEq

/-- `drop_duplicates(subset=['jobId'])`: keep the first row of each
jobId. -/
def dedupJobsAux (seen : List Int) : List RawJob → List RawJob
  | [] => []
  | r :: t =>
      if r.jobId ∈ seen then dedupJobsAux seen t
      else r :: dedupJobsAux (r.jobId :: seen) t

/-- `_load_jobs`: drop duplicate jobIds and coerce the hourly rate, a
missing or non-numeric cell becoming `0` (`fillna(0)`); the row itself
is kept. -/
def loadJobs (raws : List RawJob) : List Job :=
  (dedupJobsAux [] raws).map (fun r =>
    ⟨r.jobId, r.employerId, r.rateRaw.getD 0⟩)

/-- The `job_to_employer` dictionary built from the loaded jobs table. -/
def jobToEmployer (jobs : List Job) : Int → Option Int :=
  fun j => (jobs.find? (fun r => r.jobId = j)).map (fun r => r.employerId)

/-- `jobs.groupby('employerId')['hourlyRate'].mean()` for one employer;
`none` when the employer has no job rows (the later left merge would
leave NaN). -/
def avgHourlyRate (jobs : List Job) (e : Int) : Option ℚ :=
  match (jobs.filter (fun r => r.employerId = e)).map
      (fun r => r.hourlyRate) with
  | [] => none
  | l => some (l.sum / (l.length : ℚ))

/-- `get_employer_financials` for one `(month, employer)` cell:
`estimatedMonthlyPayroll = avgEmployeeCount * avgHourlyRate * 160`,
undefined when either factor is missing. -/
def estimatedMonthlyPayroll (jobs : List Job) (counts : List ECRow)
    (m : Nat) (e : Int) : Option ℚ :=
  (avgEmployeeCount counts m e).bind (fun c =>
    (avgHourlyRate jobs e).map (fun w => c * w * 160))

/-- The source snapshot a build reads: the raw jobs table, the employer
universe of `employer_meta` (its id column; the location parsing of
`_process_employer_meta` plays no role in the claims), the log chunks,
and the snapshot's maximum source-file modification time. The build
never reads `srcMtime`; the field models the filesystem state the cache
discussion is about. -/
structure Sources where
  rawJobs : List RawJob
  metaIds : List Int
  chunks : List (List RawRec)
  srcMtime : Nat
deriving DecidableEq

/-- The unified employer dataset dictionary that
`_save_unified_employer_dataset` pickles: exactly the five derived
tables, nothing else — in particular, no modification time is recorded. -/
structure Bundle where
  employerMeta : List Int
  employeeCounts : List ECRow
  turnover : List TRow
  jobFlows : List FlowRow
  tenure : List TenureRow
deriving DecidableEq

/-- The non-cached body of `build_employer_datasets`: run the five
processing steps over the sources. -/
def freshBuild (monthOf : Nat → Nat) (src : Sources) : Bundle :=
  let jobs := loadJobs src.rawJobs
  let j2e := jobToEmployer jobs
  let counts := processEmployeeCounts j2e monthOf src.chunks
  { employerMeta := src.metaIds
    employeeCounts := counts
    turnover := processTurnover j2e monthOf src.chunks counts
    jobFlows := processJobFlows j2e src.chunks
    tenure := processTenureStats j2e src.chunks }

/-- `_load_cached_unified_employer_dataset`: return the pickled bundle
when the cache file exists and unpickles, `none` otherwise. The function
inspects nothing but the cache file itself — no source modification
times. -/
def loadCachedUnifiedEmployerDataset (cacheFile : Option Bundle) :
    Option Bundle :=
  cacheFile

/-- `build_employer_datasets`: unless a rebuild is forced, serve a
loadable cached bundle as is; otherwise build from the sources (the
fresh result is then pickled back, which the state passing of the
callers below models by handing the returned bundle around). -/
def buildEmployerDatasets (monthOf : Nat → Nat) (forceRebuild : Bool)
    (cacheFile : Option Bundle) (src : Sources) : Bundle :=
  if forceRebuild then freshBuild monthOf src
  else
    match loadCachedUnifiedEmployerDataset cacheFile with
    | some cached => cached
    | none => freshBuild monthOf src

/-! ### Helper lemmas -/

theorem avgEmployeeCount_nonneg {counts : List ECRow} {m : Nat} {e : Int}
    {d : ℚ} (h : avgEmployeeCount counts m e = some d) : 0 ≤ d := by
  unfold avgEmployeeCount at h
  split at h
  · exact absurd h (by simp)
  · rw [Option.some_inj] at h
    subst h
    refine div_nonneg (List.sum_nonneg ?_) (Nat.cast_nonneg _)
    intro x hx
    rcases List.mem_map.1 hx with ⟨r, _, rfl⟩
    exact Nat.cast_nonneg _

theorem calcTurnover_nonneg (h q : Nat) (avg : Option ℚ)
    (ha : ∀ d, avg = some d → 0 ≤ d) : 0 ≤ calcTurnover h q avg := by
  unfold calcTurnover
  match avg with
  | none => exact le_refl 0
  | some d =>
      by_cases hd : d = 0
      · simp [hd]
      · have hd0 : 0 ≤ d := ha d rfl
        have h1 : (0 : ℚ) ≤ (h : ℚ) + (q : ℚ) :=
          add_nonneg (Nat.cast_nonneg _) (Nat.cast_nonneg _)
        simp only [if_neg hd]
        exact div_nonneg (div_nonneg h1 (by norm_num)) hd0

/-! ### Claim C1 -/

/-- Claim C1: every row of the built turnover table has
`turnoverRate = (hires + quits) / 2 / avgEmployeeCount`, where the
average is the mean `employeeCount` of that `(month, employerId)`
group's rows of the employee-counts table; the rate is `0` whenever that
average is absent or zero; the computation is total (the embedding is a
total function, nothing is raised) and the rate is never negative. -/
theorem spec_C1 (j2e : Int → Option Int) (monthOf : Nat → Nat)
    (chunks : List (List RawRec)) (counts : List ECRow) (r : TRow)
    (hr : r ∈ processTurnover j2e monthOf chunks counts) :
    (avgEmployeeCount counts r.month r.employerId = none →
      r.turnoverRate = 0) ∧
    (∀ d, avgEmployeeCount counts r.month r.employerId = some d →
      (d = 0 → r.turnoverRate = 0) ∧
      (d ≠ 0 → r.turnoverRate = ((r.hires : ℚ) + (r.quits : ℚ)) / 2 / d)) ∧
    0 ≤ r.turnoverRate := by
  unfold processTurnover at hr
  rcases List.mem_map.1 hr with ⟨k, hk, rfl⟩
  simp only [turnoverRow]
  refine ⟨fun h0 => ?_, fun d hd => ⟨fun hd0 => ?_, fun hd0 => ?_⟩, ?_⟩
  · simp [turnoverRow, calcTurnover, h0]
  · simp [turnoverRow, calcTurnover, hd, hd0]
  · simp [turnoverRow, calcTurnover, hd, if_neg hd0]
  · refine calcTurnover_nonneg _ _ _ (fun d hd => ?_)
    exact avgEmployeeCount_nonneg hd

def w1j2e : Int → Option Int := fun j => if j = 1 then some 10 else none

def w1mo : Nat → Nat := fun t => t / 43200

def w1chunks : List (List RawRec) := [[⟨0, 7, some 1⟩]]

def w1counts : List ECRow := [⟨0, 0, 10, 4⟩]

def w1row : TRow := ⟨0, 10, 1, 0, 1, 1/8⟩

theorem spec_C1_witness :
    (avgEmployeeCount w1counts w1row.month w1row.employerId = none →
      w1row.turnoverRate = 0) ∧
    (∀ d, avgEmployeeCount w1counts w1row.month w1row.employerId = some d →
      (d = 0 → w1row.turnoverRate = 0) ∧
      (d ≠ 0 →
        w1row.turnoverRate = ((w1row.hires : ℚ) + (w1row.quits : ℚ)) / 2 / d)) ∧
    0 ≤ w1row.turnoverRate :=
  spec_C1 w1j2e w1mo w1chunks w1counts w1row (by
    have h : processTurnover w1j2e w1mo w1chunks w1counts = [w1row] := by
      simp [processTurnover, turnoverRow, turnoverEvents, turnoverStep,
        walkChunk, walkStep, codeRecs, sortRecs, List.insertionSort,
        List.orderedInsert, classifyTurnover, resolvePrev, resolveEmp, w1j2e,
        w1mo, w1chunks, w1counts, w1row, avgEmployeeCount, calcTurnover]
      norm_num
    rw [h]
    exact List.mem_singleton_self _)

/-! ### Claim C9 -/

/-- Claim C9: the dataset build is deterministic over an unchanged
source snapshot. The embedded build is a pure function of the sources,
so a first run from an empty cache, a second run that finds that run's
persisted bundle, and a forced rebuild all return the same derived
tables. -/
theorem spec_C9 (monthOf : Nat → Nat) (src : Sources) :
    buildEmployerDatasets monthOf false
        (some (buildEmployerDatasets monthOf false none src)) src =
      buildEmployerDatasets monthOf false none src ∧
    buildEmployerDatasets monthOf true
        (some (buildEmployerDatasets monthOf false none src)) src =
      buildEmployerDatasets monthOf false none src ∧
    buildEmployerDatasets monthOf false none src = freshBuild monthOf src :=
  ⟨rfl, rfl, rfl⟩

/-! ### Claim C7 -/

/-- Claim C7 (amended): the cache read path serves a stored bundle
unconditionally whenever it exists and loads; the persisted bundle
records no source modification time and no mtime comparison happens, so
a source change never invalidates it — only a missing/unreadable cache
or a forced rebuild triggers recomputation. -/
theorem spec_C7 (monthOf : Nat → Nat) (src : Sources) (b : Bundle) :
    buildEmployerDatasets monthOf false (some b) src = b ∧
    buildEmployerDatasets monthOf false none src = freshBuild monthOf src ∧
    buildEmployerDatasets monthOf true (some b) src = freshBuild monthOf src :=
  ⟨rfl, rfl, rfl⟩

def c7mo : Nat → Nat := fun t => t / 43200

def c7src1 : Sources := ⟨[⟨1, 10, some 5⟩], [10], [[⟨0, 7, some 1⟩]], 1⟩

def c7src2 : Sources := ⟨[⟨1, 10, some 5⟩], [10], [], 2⟩

/-- Claim C7 (counterexample): a source snapshot changes (its maximum
mtime grows from 1 to 2 and its chunk data differs, so a fresh build
would differ), yet the read path still serves the bundle built from the
old snapshot — the recorded-mtime freshness test the claim describes
does not exist. -/
theorem spec_C7_cex :
    c7src1.srcMtime < c7src2.srcMtime ∧
    buildEmployerDatasets c7mo false (some (freshBuild c7mo c7src1)) c7src2 =
      freshBuild c7mo c7src1 ∧
    freshBuild c7mo c7src1 ≠ freshBuild c7mo c7src2 := by
  refine ⟨by decide, rfl, fun h => ?_⟩
  exact absurd (congrArg Bundle.employeeCounts h) (by decide)

/-! ### Claim C5 -/

theorem collectFlow_ne (j2e : Int → Option Int) (t : Nat × Option Int × Int) :
    ∀ p ∈ collectFlow j2e t, p.1 ≠ p.2 := by
  intro p hp
  unfold collectFlow at hp
  split at hp
  · exact absurd hp (by simp)
  · split at hp
    · rename_i a b heq
      split at hp
      · exact absurd hp (by simp)
      · rename_i hne
        rcases List.mem_singleton.1 hp with rfl
        exact hne
    · exact absurd hp (by simp)

theorem flowTransitionPairs_ne (j2e : Int → Option Int)
    (chunks : List (List RawRec)) :
    ∀ p ∈ flowTransitionPairs j2e chunks, p.1 ≠ p.2 := by
  unfold flowTransitionPairs
  suffices h : ∀ (acc : List (Int × Int) × (Int → Option Int)),
      (∀ p ∈ acc.1, p.1 ≠ p.2) →
      ∀ p ∈ (chunks.foldl (flowStep j2e) acc).1, p.1 ≠ p.2 by
    exact h ([], fun _ => none) (by simp)
  induction chunks with
  | nil => intro acc hacc; exact hacc
  | cons c cs ih =>
      intro acc hacc
      rw [List.foldl_cons]
      refine ih (flowStep j2e acc c) ?_
      intro p hp
      unfold flowStep at hp
      rcases List.mem_append.1 hp with h1 | h1
      · exact hacc p h1
      · rcases List.mem_flatMap.1 h1 with ⟨t, _, ht⟩
        exact collectFlow_ne j2e t p ht

/-- Claim C5: every row of the job-flow table has
`fromEmployer ≠ toEmployer`, for every input log stream and
job-to-employer mapping. -/
theorem spec_C5 (j2e : Int → Option Int) (chunks : List (List RawRec))
    (r : FlowRow) (hr : r ∈ processJobFlows j2e chunks) :
    r.fromEmployer ≠ r.toEmployer := by
  unfold processJobFlows at hr
  rw [(List.perm_insertionSort _ _).mem_iff] at hr
  rcases List.mem_map.1 hr with ⟨k, hk, rfl⟩
  exact flowTransitionPairs_ne j2e chunks k (List.mem_dedup.1 hk)

def w5j2e : Int → Option Int :=
  fun j => if j = 1 then some 10 else if j = 2 then some 20 else none

def w5chunks : List (List RawRec) :=
  [[⟨0, 7, some 1⟩, ⟨5, 7, none⟩, ⟨10, 7, some 2⟩]]

theorem spec_C5_witness :
    (⟨10, 20, 1⟩ : FlowRow).fromEmployer ≠ (⟨10, 20, 1⟩ : FlowRow).toEmployer :=
  spec_C5 w5j2e w5chunks ⟨10, 20, 1⟩ (by decide)

/-! ### Claim C3 -/

/-- Claim C3: a participant observed with job `J1` (employer `A`) in
chunk 1, absent from chunk 2, and observed with job `J2` (employer `B`,
`B ≠ A`) in chunk 3 yields exactly one quit at `A` and one hire at `B`
(the Switch pair), both attributed to the chunk-3 month, and no event
attributable to chunk 2 — the full event stream is the initial hire at
`A` from chunk 1 followed by those two chunk-3 events; the last-known
job is carried across the empty chunk. -/
theorem spec_C3 (j2e : Int → Option Int) (monthOf : Nat → Nat)
    (t1 t3 : Nat) (P J1 J2 A B : Int)
    (hJ1 : j2e J1 = some A) (hJ2 : j2e J2 = some B) (hAB : A ≠ B)
    (h1 : J1 ≠ -1) (h2 : J2 ≠ -1) :
    turnoverEvents j2e monthOf [[⟨t1, P, some J1⟩], [], [⟨t3, P, some J2⟩]] =
      [⟨monthOf t1, A, 1, 0, 0⟩, ⟨monthOf t3, A, 0, 1, 1⟩,
        ⟨monthOf t3, B, 1, 0, 0⟩] := by
  have hJ12 : J1 ≠ J2 := by
    intro h
    rw [h, hJ2] at hJ1
    exact hAB (Option.some.inj hJ1).symm
  simp [turnoverEvents, turnoverStep, walkChunk, walkStep, codeRecs, sortRecs,
    List.insertionSort, List.orderedInsert, classifyTurnover, resolvePrev,
    resolveEmp, h1, h2, hJ1, hJ2, hAB, hJ12]

theorem spec_C3_witness :
    turnoverEvents w5j2e w1mo [[⟨0, 7, some 1⟩], [], [⟨100000, 7, some 2⟩]] =
      [⟨w1mo 0, 10, 1, 0, 0⟩, ⟨w1mo 100000, 10, 0, 1, 1⟩,
        ⟨w1mo 100000, 20, 1, 0, 0⟩] :=
  spec_C3 w5j2e w1mo 0 100000 7 1 2 10 20 (by decide) (by decide) (by decide)
    (by decide) (by decide)

/-! ### Claim C2 -/

theorem filter_flatMap_comm {α β : Type} (l : List α) (f : α → List β)
    (p : β → Bool) :
    (l.flatMap f).filter p = l.flatMap (fun a => (f a).filter p) := by
  induction l with
  | nil => rfl
  | cons a t ih => simp [List.flatMap_cons, List.filter_append, ih]

theorem flatMap_single {α β : Type} (g : α → List β) (ids : List α) (e : α)
    (hnd : ids.Nodup) (he : e ∈ ids)
    (hz : ∀ id ∈ ids, id ≠ e → g id = []) :
    ids.flatMap g = g e := by
  induction ids with
  | nil => cases he
  | cons a t ih =>
      rw [List.flatMap_cons]
      rcases List.mem_cons.1 he with rfl | he1
      · have ht : t.flatMap g = [] := by
          rw [List.flatMap_eq_nil_iff]
          intro b hb
          exact hz b (List.mem_cons_of_mem _ hb)
            (fun hbe => (List.nodup_cons.1 hnd).1 (hbe ▸ hb))
        rw [ht, List.append_nil]
      · have ha : a ≠ e := fun h => (List.nodup_cons.1 hnd).1 (h ▸ he1)
        rw [hz a (List.mem_cons_self a t) ha, List.nil_append]
        exact ih (List.nodup_cons.1 hnd).2 he1
          (fun id hid hne => hz id (List.mem_cons_of_mem _ hid) hne)

theorem nodup_key_filter_le_one {α κ : Type} [DecidableEq κ]
    (l : List α) (f : α → κ) (x : κ) (h : (l.map f).Nodup) :
    (l.filter (fun a => f a = x)).length ≤ 1 := by
  induction l with
  | nil => simp
  | cons a t ih =>
      rw [List.map_cons, List.nodup_cons] at h
      by_cases hfa : f a = x
      · rw [List.filter_cons_of_pos (by simp [hfa])]
        have ht : t.filter (fun a => f a = x) = [] := by
          rw [List.filter_eq_nil_iff]
          intro b hb hbx
          exact h.1 (by
            rw [show f a = f b by rw [hfa, of_decide_eq_true hbx]]
            exact List.mem_map_of_mem f hb)
        simp [ht]
      · rw [List.filter_cons_of_neg (by simp [hfa])]
        exact ih h.2

theorem processTurnover_keys_nodup (j2e : Int → Option Int)
    (monthOf : Nat → Nat) (chunks : List (List RawRec))
    (counts : List ECRow) :
    ((processTurnover j2e monthOf chunks counts).map
      (fun r => (r.month, r.employerId))).Nodup := by
  unfold processTurnover
  rw [List.map_map]
  have h : ((fun r : TRow => (r.month, r.employerId)) ∘
      turnoverRow (turnoverEvents j2e monthOf chunks) counts) = id :=
    funext (fun k => rfl)
  rw [h, List.map_id]
  exact List.nodup_dedup _

/-- Claim C2: with `fillMissing=true`, the turnover read path returns,
for every employer of the metadata universe and requested month, exactly
one row; a `(month, employer)` group absent from the built turnover
table comes back as the zero row (hires, quits, net change 0 and rate
0.0), and a present group's row is passed through unchanged. -/
theorem spec_C2 (j2e : Int → Option Int) (monthOf : Nat → Nat)
    (chunks : List (List RawRec)) (counts : List ECRow)
    (meta : List Int) (m : Nat) (e : Int) (he : e ∈ meta) :
    ((((processTurnover j2e monthOf chunks counts).filter
        (fun r => r.month = m)).filter (fun r => r.employerId = e) = [] →
      (getTurnoverHeatmapData (processTurnover j2e monthOf chunks counts)
        meta m).filter (fun r => r.employerId = e) =
        [(⟨m, e, 0, 0, 0, 0⟩ : TRow)]) ∧
    (∀ row, (((processTurnover j2e monthOf chunks counts).filter
        (fun r => r.month = m)).filter (fun r => r.employerId = e) = [row] →
      (getTurnoverHeatmapData (processTurnover j2e monthOf chunks counts)
        meta m).filter (fun r => r.employerId = e) = [row])) ∧
    ((getTurnoverHeatmapData (processTurnover j2e monthOf chunks counts)
        meta m).filter (fun r => r.employerId = e)).length = 1) := by
  set tbl := processTurnover j2e monthOf chunks counts with htbl
  have hmeta : meta ≠ [] := List.ne_nil_of_mem he
  have hout : getTurnoverHeatmapData tbl meta m =
      meta.dedup.flatMap (fun e' =>
        match (tbl.filter (fun r => r.month = m)).filter
            (fun r => r.employerId = e') with
        | [] => [(⟨m, e', 0, 0, 0, 0⟩ : TRow)]
        | l => l) := by
    unfold getTurnoverHeatmapData fillMissingTurnoverMonth
    rw [if_neg hmeta]
  have hblock_emp : ∀ e' : Int, ∀ r ∈ (match (tbl.filter
      (fun r => r.month = m)).filter (fun r => r.employerId = e') with
      | [] => [(⟨m, e', 0, 0, 0, 0⟩ : TRow)]
      | l => l), r.employerId = e' := by
    intro e' r hr
    split at hr
    · rcases List.mem_singleton.1 hr with rfl
      rfl
    · exact of_decide_eq_true (List.mem_filter.1 hr).2
  have hfilter : (getTurnoverHeatmapData tbl meta m).filter
      (fun r => r.employerId = e) =
      (match (tbl.filter (fun r => r.month = m)).filter
          (fun r => r.employerId = e) with
      | [] => [(⟨m, e, 0, 0, 0, 0⟩ : TRow)]
      | l => l) := by
    rw [hout, filter_flatMap_comm]
    rw [flatMap_single _ _ e (List.nodup_dedup meta) (List.mem_dedup.2 he) ?hz]
    case hz =>
      intro id hid hne
      rw [List.filter_eq_nil_iff]
      intro r hr hre
      exact hne (by rw [← hblock_emp id r hr, of_decide_eq_true hre])
    rw [List.filter_eq_self.2]
    intro r hr
    exact decide_eq_true (hblock_emp e r hr)
  have hle : ((tbl.filter (fun r => r.month = m)).filter
      (fun r => r.employerId = e)).length ≤ 1 := by
    have hnd : ((tbl.filter (fun r => r.month = m)).map
        (fun r => r.employerId)).Nodup := by
      have h1 : ((tbl.filter (fun r => r.month = m)).map
          (fun r => (r.month, r.employerId))).Nodup :=
        ((List.filter_sublist tbl).map _).nodup
          (processTurnover_keys_nodup j2e monthOf chunks counts)
      have h2 : (tbl.filter (fun r => r.month = m)).map
          (fun r => (r.month, r.employerId)) =
          ((tbl.filter (fun r => r.month = m)).map
            (fun r => r.employerId)).map (fun x => (m, x)) := by
        rw [List.map_map]
        refine List.map_congr_left (fun r hr => ?_)
        have := of_decide_eq_true (List.mem_filter.1 hr).2
        simp [Function.comp, this]
      rw [h2] at h1
      exact h1.of_map _
    exact nodup_key_filter_le_one _ _ _ hnd
  refine ⟨fun h0 => ?_, fun row hrow => ?_, ?_⟩
  · rw [hfilter, h0]
  · rw [hfilter, hrow]
  · rw [hfilter]
    rcases hm : (tbl.filter (fun r => r.month = m)).filter
        (fun r => r.employerId = e) with _ | ⟨r, t⟩
    · rw [hm]
      rfl
    · rw [hm] at hle ⊢
      rcases t with _ | ⟨r2, t2⟩
      · rfl
      · simp at hle

def w2meta : List Int := [10, 20, 30]

theorem spec_C2_witness :
    ((((processTurnover w1j2e w1mo w1chunks w1counts).filter
        (fun r => r.month = 5)).filter (fun r => r.employerId = 20) = [] →
      (getTurnoverHeatmapData (processTurnover w1j2e w1mo w1chunks w1counts)
        w2meta 5).filter (fun r => r.employerId = 20) =
        [(⟨5, 20, 0, 0, 0, 0⟩ : TRow)]) ∧
    (∀ row, (((processTurnover w1j2e w1mo w1chunks w1counts).filter
        (fun r => r.month = 5)).filter (fun r => r.employerId = 20) = [row] →
      (getTurnoverHeatmapData (processTurnover w1j2e w1mo w1chunks w1counts)
        w2meta 5).filter (fun r => r.employerId = 20) = [row])) ∧
    ((getTurnoverHeatmapData (processTurnover w1j2e w1mo w1chunks w1counts)
        w2meta 5).filter (fun r => r.employerId = 20)).length = 1) :=
  spec_C2 w1j2e w1mo w1chunks w1counts w2meta 5 20 (by decide)

/-! ### Claim C4 -/

theorem filter_map_comm {α β : Type} (f : α → β) (p : β → Bool)
    (l : List α) :
    (l.map f).filter p = (l.filter (fun a => p (f a))).map f := by
  induction l with
  | nil => rfl
  | cons a t ih =>
      by_cases hp : p (f a) <;> simp [List.filter_cons, hp, ih]

theorem nodup_filter_eq_single {α : Type} [DecidableEq α]
    (l : List α) (x : α) (h : l.Nodup) :
    l.filter (fun a => a = x) = if x ∈ l then [x] else [] := by
  induction l with
  | nil => simp
  | cons a t ih =>
      rw [List.nodup_cons] at h
      by_cases hax : a = x
      · subst hax
        rw [List.filter_cons_of_pos (by simp)]
        have ht : t.filter (fun b => b = a) = [] :=
          List.filter_eq_nil_iff.2
            (fun b hb hba => h.1 (of_decide_eq_true hba ▸ hb))
        rw [ht, if_pos (List.mem_cons_self a t)]
      · rw [List.filter_cons_of_neg (by simp [hax]), ih h.2]
        by_cases hx : x ∈ t
        · rw [if_pos hx, if_pos (List.mem_cons_of_mem a hx)]
        · rw [if_neg hx, if_neg (by
            intro hmem
            rcases List.mem_cons.1 hmem with h1 | h1
            · exact hax h1.symm
            · exact hx h1)]

theorem flowCount_processJobFlows (j2e : Int → Option Int)
    (chunks : List (List RawRec)) (A B : Int) :
    flowCount (processJobFlows j2e chunks) A B =
      ((flowTransitionPairs j2e chunks).filter
        (fun p => p = (A, B))).length := by
  unfold flowCount processJobFlows
  have hperm := (List.perm_insertionSort
    (fun a b : FlowRow => b.count ≤ a.count)
    ((flowTransitionPairs j2e chunks).dedup.map (fun k =>
      (⟨k.1, k.2, ((flowTransitionPairs j2e chunks).filter
        (fun p => p = k)).length⟩ : FlowRow))))
  rw [((hperm.filter _).map (fun r : FlowRow => r.count)).sum_eq]
  rw [filter_map_comm]
  have hpred : (fun k : Int × Int =>
      decide ((⟨k.1, k.2, ((flowTransitionPairs j2e chunks).filter
        (fun p => p = k)).length⟩ : FlowRow).fromEmployer = A ∧
        (⟨k.1, k.2, ((flowTransitionPairs j2e chunks).filter
          (fun p => p = k)).length⟩ : FlowRow).toEmployer = B)) =
      (fun k : Int × Int => decide (k = (A, B))) := by
    funext k
    show decide (k.1 = A ∧ k.2 = B) = decide (k = (A, B))
    apply decide_eq_decide.2
    obtain ⟨k1, k2⟩ := k
    simp [Prod.mk.injEq]
  rw [hpred, nodup_filter_eq_single _ _ (List.nodup_dedup _)]
  by_cases hmem : (A, B) ∈ (flowTransitionPairs j2e chunks).dedup
  · rw [if_pos hmem]
    rfl
  · rw [if_neg hmem]
    have : (flowTransitionPairs j2e chunks).filter
        (fun p => p = (A, B)) = [] :=
      List.filter_eq_nil_iff.2 (fun p hp hpx =>
        hmem (List.mem_dedup.2 (of_decide_eq_true hpx ▸ hp)))
    rw [this]
    rfl

theorem collectFlow_eq_collectSwitch {j2e : Int → Option Int}
    (hneg : j2e (-1) = none) (t : Nat × Option Int × Int) :
    collectFlow j2e t = collectSwitch j2e t := by
  obtain ⟨ts, prev, cur⟩ := t
  rcases prev with _ | p
  · rcases h : resolveEmp j2e cur with _ | b <;>
      simp [collectFlow, collectSwitch, resolvePrev, h]
  · by_cases hp : p = -1
    · subst hp
      rcases h2 : resolveEmp j2e cur with _ | b2 <;>
        simp [collectFlow, collectSwitch, resolvePrev, resolveEmp, hneg, h2]
    · by_cases hc : cur = -1
      · subst hc
        rcases hp2 : j2e p with _ | a <;>
          simp [collectFlow, collectSwitch, resolvePrev, resolveEmp, hneg,
            hp, hp2]
      · rcases hp2 : j2e p with _ | a <;> rcases hc2 : j2e cur with _ | b <;>
          simp [collectFlow, collectSwitch, resolvePrev, resolveEmp, hp, hc,
            hp2, hc2]

theorem flowTransitionPairs_eq_switchPairs (j2e : Int → Option Int)
    (hneg : j2e (-1) = none) (chunks : List (List RawRec)) :
    flowTransitionPairs j2e chunks =
      switchPairs j2e (chunks.map employedRecs) := by
  have hfun : collectFlow j2e = collectSwitch j2e :=
    funext (collectFlow_eq_collectSwitch hneg)
  unfold flowTransitionPairs switchPairs
  rw [List.foldl_map]
  unfold flowStep switchStep
  rw [hfun]

/-- Claim C4 (amended): for every employer pair `(A, B)`, the job-flow
count equals the number of Switch transitions from `A` to `B` that the
paragraph-4.2 classification produces on the stream with the unemployed
(blank-jobId) observations dropped first. (On the raw stream the two
disagree: the flow aggregator drops unemployed rows before adjacency, so
a move `A` to unemployment to `B` counts as a flow although paragraph
4.2 classifies it as a Quit plus a Hire.) The hypothesis says the job
reference resolves no employer for the `-1` sentinel, which holds for
any real jobId universe. -/
theorem spec_C4 (j2e : Int → Option Int) (chunks : List (List RawRec))
    (A B : Int) (hneg : j2e (-1) = none) :
    flowCount (processJobFlows j2e chunks) A B =
      ((switchPairs j2e (chunks.map employedRecs)).filter
        (fun p => p = (A, B))).length := by
  rw [flowCount_processJobFlows, flowTransitionPairs_eq_switchPairs j2e hneg]

/-- Claim C4 (counterexample): a participant observed employed at
employer 10, then unemployed, then employed at employer 20 yields a
job-flow row with count 1 for `(10, 20)`, while the paragraph-4.2
classification of the same stream has zero Switch transitions from 10
to 20 (it sees Quit(10) then Hire(20)) — refuting the claimed equality
on the raw stream. -/
theorem spec_C4_cex :
    flowCount (processJobFlows w5j2e w5chunks) 10 20 = 1 ∧
    ((switchPairs w5j2e w5chunks).filter
      (fun p => p = ((10 : Int), (20 : Int)))).length = 0 ∧
    flowCount (processJobFlows w5j2e w5chunks) 10 20 ≠
      ((switchPairs w5j2e w5chunks).filter
        (fun p => p = ((10 : Int), (20 : Int)))).length :=
  ⟨by decide, by decide, by decide⟩

theorem spec_C4_witness :
    flowCount (processJobFlows w5j2e w5chunks) 10 20 =
      ((switchPairs w5j2e (w5chunks.map employedRecs)).filter
        (fun p => p = ((10 : Int), (20 : Int)))).length :=
  spec_C4 w5j2e w5chunks 10 20 (by decide)

/-! ### Claim C6 -/

/-- The timestamps at which a given `(participantId, jobId)` pair is
observed in a record list (jobId cell present and equal). -/
def pairObs (c : List RawRec) (pid jid : Int) : List Nat :=
  (c.filter (fun r => r.pid = pid ∧ r.job = some jid)).map (fun r => r.ts)

/-- The same pair's observation timestamps over the undivided record
stream of all chunks. -/
def tenurePairObs (chunks : List (List RawRec)) (pid jid : Int) :
    List Nat :=
  pairObs (chunks.flatMap (fun c => c)) pid jid

theorem alookup_eq_none_of_not_mem {κ β : Type} [DecidableEq κ]
    {l : List (κ × β)} {k : κ} (h : k ∉ l.map Prod.fst) :
    alookup l k = none := by
  induction l with
  | nil => rfl
  | cons p t ih =>
      rw [List.map_cons, List.mem_cons] at h
      push_neg at h
      show (if p.1 = k then some p.2 else alookup t k) = none
      rw [if_neg (fun hh => h.1 hh.symm)]
      exact ih h.2

theorem alookup_aupsert {κ β : Type} [DecidableEq κ]
    (m : List (κ × β)) (k : κ) (v : β) (k2 : κ) :
    alookup (aupsert m k v) k2 = if k = k2 then some v else alookup m k2 := by
  induction m with
  | nil =>
      show (if k = k2 then some v else none) = _
      rfl
  | cons p t ih =>
      obtain ⟨k1, v1⟩ := p
      show alookup (if k1 = k then (k, v) :: t else (k1, v1) :: aupsert t k v) k2 = _
      by_cases h1 : k1 = k
      · subst h1
        rw [if_pos rfl]
        by_cases h2 : k1 = k2 <;> simp [alookup, h2]
      · rw [if_neg h1]
        by_cases h2 : k1 = k2
        · subst h2
          have h3 : ¬ k = k1 := fun hh => h1 hh.symm
          simp [alookup, h3]
        · simp [alookup, h2, ih]

theorem alookup_fold_upsert {κ β γ : Type} [DecidableEq κ]
    (comb : Option γ → β → γ) (es : List (κ × β)) (m : List (κ × γ))
    (k : κ) (hnd : (es.map Prod.fst).Nodup) :
    alookup (es.foldl
        (fun m kp => aupsert m kp.1 (comb (alookup m kp.1) kp.2)) m) k =
      match alookup es k with
      | none => alookup m k
      | some v => some (comb (alookup m k) v) := by
  induction es generalizing m with
  | nil => rfl
  | cons p t ih =>
      obtain ⟨k1, v1⟩ := p
      rw [List.foldl_cons]
      rw [List.map_cons, List.nodup_cons] at hnd
      rw [ih _ hnd.2]
      by_cases h1 : k1 = k
      · subst h1
        have htk : alookup t k1 = none := alookup_eq_none_of_not_mem hnd.1
        rw [htk]
        show alookup (aupsert m k1 (comb (alookup m k1) v1)) k1 =
          match alookup ((k1, v1) :: t) k1 with
          | none => alookup m k1
          | some v => some (comb (alookup m k1) v)
        rw [alookup_aupsert]
        simp [alookup]
      · have hlk : alookup ((k1, v1) :: t) k = alookup t k := by
          simp [alookup, h1]
        rw [hlk]
        cases htk : alookup t k <;>
          simp [alookup_aupsert, h1, htk]

theorem alookup_map_keys {κ β : Type} [DecidableEq κ]
    (keys : List κ) (f : κ → β) (k : κ) :
    alookup (keys.map (fun k1 => (k1, f k1))) k =
      if k ∈ keys then some (f k) else none := by
  induction keys with
  | nil => simp [alookup]
  | cons a t ih =>
      by_cases h : a = k
      · subst h
        simp [alookup]
      · have h2 : ¬ k = a := fun hh => h hh.symm
        simp [alookup, h, h2, ih]

theorem chunkSummary_keys_nodup (c : List RawRec) :
    ((chunkSummary c).map Prod.fst).Nodup := by
  unfold chunkSummary
  rw [List.map_map]
  have h : (Prod.fst ∘ (fun (k : Int × Int) =>
      ((k, (minL (((employedRecs c).filter
        (fun r => r.pid = k.1 ∧ r.job.getD 0 = k.2)).map (fun r => r.ts)),
        maxL (((employedRecs c).filter
          (fun r => r.pid = k.1 ∧ r.job.getD 0 = k.2)).map
            (fun r => r.ts)))) : (Int × Int) × Nat × Nat))) = id :=
    funext (fun k => rfl)
  rw [h, List.map_id]
  exact List.nodup_dedup _

theorem employed_filter_bridge (c : List RawRec) (pid jid : Int) :
    (employedRecs c).filter (fun r => r.pid = pid ∧ r.job.getD 0 = jid) =
      c.filter (fun r => r.pid = pid ∧ r.job = some jid) := by
  unfold employedRecs
  rw [List.filter_filter]
  refine List.filter_congr (fun r _ => ?_)
  rcases hj : r.job with _ | x
  · simp [hj]
  · simp [hj]

theorem alookup_chunkSummary (c : List RawRec) (pid jid : Int) :
    alookup (chunkSummary c) (pid, jid) =
      match pairObs c pid jid with
      | [] => none
      | l => some (minL l, maxL l) := by
  unfold chunkSummary
  rw [alookup_map_keys]
  have hbridge : ((employedRecs c).filter
      (fun r => r.pid = pid ∧ r.job.getD 0 = jid)).map (fun r => r.ts) =
      pairObs c pid jid := by
    rw [employed_filter_bridge]
    rfl
  by_cases hmem : (pid, jid) ∈
      ((employedRecs c).map (fun r => (r.pid, r.job.getD 0))).dedup
  · rw [if_pos hmem]
    have hne : pairObs c pid jid ≠ [] := by
      rcases List.mem_map.1 (List.mem_dedup.1 hmem) with ⟨r, hr, hkey⟩
      have h1 : r.pid = pid := congrArg Prod.fst hkey
      have h2 : r.job.getD 0 = jid := congrArg Prod.snd hkey
      have hrf : r ∈ (employedRecs c).filter
          (fun r => r.pid = pid ∧ r.job.getD 0 = jid) :=
        List.mem_filter.2 ⟨hr, by simp [h1, h2]⟩
      rw [employed_filter_bridge] at hrf
      exact List.ne_nil_of_mem (List.mem_map_of_mem (fun r => r.ts) hrf)
    rw [hbridge]
    rcases hobs : pairObs c pid jid with _ | ⟨x, xs⟩
    · exact absurd hobs hne
    · rfl
  · rw [if_neg hmem]
    rcases hobs : pairObs c pid jid with _ | ⟨x, xs⟩
    · rfl
    · exfalso
      have hx : x ∈ pairObs c pid jid := by
        rw [hobs]
        exact List.mem_cons_self _ _
      rcases List.mem_map.1 hx with ⟨r, hrf, _⟩
      rcases List.mem_filter.1 hrf with ⟨hr, hcond⟩
      rcases of_decide_eq_true hcond with ⟨hpid, hjob⟩
      refine hmem (List.mem_dedup.2 (List.mem_map.2 ⟨r, ?_, ?_⟩))
      · exact List.mem_filter.2 ⟨hr, by simp [hjob]⟩
      · simp [hpid, hjob]

theorem foldl_min_assoc (l : List Nat) (a b : Nat) :
    l.foldl min (min a b) = min a (l.foldl min b) := by
  induction l generalizing b with
  | nil => rfl
  | cons c t ih =>
      show t.foldl min (min (min a b) c) = min a (t.foldl min (min b c))
      rw [min_assoc, ih]

theorem foldl_max_assoc (l : List Nat) (a b : Nat) :
    l.foldl max (max a b) = max a (l.foldl max b) := by
  induction l generalizing b with
  | nil => rfl
  | cons c t ih =>
      show t.foldl max (max (max a b) c) = max a (t.foldl max (max b c))
      rw [max_assoc, ih]

theorem minL_append (l1 l2 : List Nat) (h1 : l1 ≠ []) (h2 : l2 ≠ []) :
    minL (l1 ++ l2) = min (minL l1) (minL l2) := by
  rcases l1 with _ | ⟨x, xs⟩
  · exact absurd rfl h1
  rcases l2 with _ | ⟨y, ys⟩
  · exact absurd rfl h2
  show (xs ++ y :: ys).foldl min x = min (xs.foldl min x) (ys.foldl min y)
  rw [List.foldl_append]
  show ys.foldl min (min (xs.foldl min x) y) = _
  rw [foldl_min_assoc]

theorem maxL_append (l1 l2 : List Nat) (h1 : l1 ≠ []) (h2 : l2 ≠ []) :
    maxL (l1 ++ l2) = max (maxL l1) (maxL l2) := by
  rcases l1 with _ | ⟨x, xs⟩
  · exact absurd rfl h1
  rcases l2 with _ | ⟨y, ys⟩
  · exact absurd rfl h2
  show (xs ++ y :: ys).foldl max x = max (xs.foldl max x) (ys.foldl max y)
  rw [List.foldl_append]
  show ys.foldl max (max (xs.foldl max x) y) = _
  rw [foldl_max_assoc]

theorem foldl_min_mem (xs : List Nat) (x : Nat) :
    xs.foldl min x ∈ x :: xs := by
  induction xs generalizing x with
  | nil => exact List.mem_singleton_self x
  | cons c t ih =>
      show t.foldl min (min x c) ∈ x :: c :: t
      rcases List.mem_cons.1 (ih (min x c)) with hh | hh
      · rcases min_choice x c with hmc | hmc
        · rw [hh, hmc]
          exact List.mem_cons_self _ _
        · rw [hh, hmc]
          exact List.mem_cons_of_mem _ (List.mem_cons_self _ _)
      · exact List.mem_cons_of_mem _ (List.mem_cons_of_mem _ hh)

theorem minL_mem (l : List Nat) (h : l ≠ []) : minL l ∈ l := by
  rcases l with _ | ⟨x, xs⟩
  · exact absurd rfl h
  exact foldl_min_mem xs x

theorem le_foldl_max (t : List Nat) (a : Nat) : a ≤ t.foldl max a := by
  induction t generalizing a with
  | nil => exact le_refl a
  | cons c t ih => exact le_trans (le_max_left a c) (ih (max a c))

theorem mem_le_foldl_max (t : List Nat) (a x : Nat) (h : x ∈ a :: t) :
    x ≤ t.foldl max a := by
  induction t generalizing a with
  | nil =>
      obtain rfl := List.mem_singleton.1 h
      exact le_refl x
  | cons c t ih =>
      show x ≤ t.foldl max (max a c)
      rcases List.mem_cons.1 h with rfl | h1
      · exact le_trans (le_max_left x c) (le_foldl_max t (max x c))
      · rcases List.mem_cons.1 h1 with rfl | h2
        · exact le_trans (le_max_right a x) (le_foldl_max t (max a x))
        · exact ih (max a c) (List.mem_cons_of_mem _ h2)

theorem mem_le_maxL (l : List Nat) (x : Nat) (h : x ∈ l) : x ≤ maxL l := by
  rcases l with _ | ⟨a, xs⟩
  · cases h
  exact mem_le_foldl_max xs a x h

theorem minL_le_maxL (l : List Nat) (h : l ≠ []) : minL l ≤ maxL l :=
  mem_le_maxL l (minL l) (minL_mem l h)

theorem alookup_tenureChunkStep (m : List ((Int × Int) × Nat × Nat))
    (c : List RawRec) (k : Int × Int) :
    alookup (tenureChunkStep m c) k =
      match alookup (chunkSummary c) k with
      | none => alookup m k
      | some v => some (mergeMM (alookup m k) v) := by
  unfold tenureChunkStep
  rw [alookup_fold_upsert mergeMM (chunkSummary c) m k
    (chunkSummary_keys_nodup c)]
  cases alookup (chunkSummary c) k <;> rfl

theorem processTenure_lookup (chunks : List (List RawRec))
    (pid jid : Int) :
    alookup (processTenure chunks) (pid, jid) =
      match tenurePairObs chunks pid jid with
      | [] => none
      | l => some (minL l, maxL l) := by
  unfold processTenure
  induction chunks using List.reverseRecOn with
  | nil => rfl
  | append_singleton cs c ih =>
      rw [List.foldl_append, List.foldl_cons, List.foldl_nil]
      rw [alookup_tenureChunkStep, alookup_chunkSummary, ih]
      have hobs : tenurePairObs (cs ++ [c]) pid jid =
          tenurePairObs cs pid jid ++ pairObs c pid jid := by
        unfold tenurePairObs pairObs
        rw [List.flatMap_append, List.filter_append, List.map_append]
        simp
      rw [hobs]
      rcases h1 : tenurePairObs cs pid jid with _ | ⟨x, xs⟩ <;>
        rcases h2 : pairObs c pid jid with _ | ⟨y, ys⟩
      · rfl
      · rfl
      · rw [List.append_nil]
      · show some (mergeMM (some (minL (x :: xs), maxL (x :: xs)))
            (minL (y :: ys), maxL (y :: ys))) = _
        rw [show mergeMM (some (minL (x :: xs), maxL (x :: xs)))
            (minL (y :: ys), maxL (y :: ys)) =
            (min (minL (x :: xs)) (minL (y :: ys)),
             max (maxL (x :: xs)) (maxL (y :: ys))) from rfl]
        rw [← minL_append _ _ (by simp) (by simp),
          ← maxL_append _ _ (by simp) (by simp)]
        rcases h3 : (x :: xs) ++ y :: ys with _ | ⟨z, zs⟩
        · exact absurd h3 (by simp)
        · rfl

/-- Claim C6: for every `(participantId, jobId)` pair observed in the
logs, the `tenure_map` entry the per-employer statistics are computed
from equals the `(min, max)` of the observed timestamps over the
undivided record stream — merging the per-chunk partial minima and
maxima loses nothing — and the tenure in whole days derived from it is
the day difference of max and min, hence nonnegative. -/
theorem spec_C6 (chunks : List (List RawRec)) (pid jid : Int)
    (h : tenurePairObs chunks pid jid ≠ []) :
    alookup (processTenure chunks) (pid, jid) =
      some (minL (tenurePairObs chunks pid jid),
        maxL (tenurePairObs chunks pid jid)) ∧
    minL (tenurePairObs chunks pid jid) ≤
      maxL (tenurePairObs chunks pid jid) ∧
    0 ≤ tenureDays (minL (tenurePairObs chunks pid jid))
      (maxL (tenurePairObs chunks pid jid)) := by
  have hle : minL (tenurePairObs chunks pid jid) ≤
      maxL (tenurePairObs chunks pid jid) := minL_le_maxL _ h
  refine ⟨?_, hle, ?_⟩
  · rw [processTenure_lookup]
    rcases hobs : tenurePairObs chunks pid jid with _ | ⟨x, xs⟩
    · exact absurd hobs h
    · rfl
  · unfold tenureDays
    refine Int.ediv_nonneg ?_ (by norm_num [minutesPerDay])
    simpa using (Int.ofNat_le.2 hle)

def w6chunks : List (List RawRec) :=
  [[⟨0, 7, some 1⟩, ⟨2000, 7, some 1⟩], [⟨9000, 7, some 1⟩]]

theorem spec_C6_witness :
    alookup (processTenure w6chunks) (7, 1) =
      some (minL (tenurePairObs w6chunks 7 1),
        maxL (tenurePairObs w6chunks 7 1)) ∧
    minL (tenurePairObs w6chunks 7 1) ≤ maxL (tenurePairObs w6chunks 7 1) ∧
    0 ≤ tenureDays (minL (tenurePairObs w6chunks 7 1))
      (maxL (tenurePairObs w6chunks 7 1)) :=
  spec_C6 w6chunks 7 1 (by decide)

/-! ### Claim C8 -/

/-- The days of a month present in the employee-counts table (the
claim's reading of the roll-up: the distinct dates of the month's
rows). -/
def specDaysOfMonth (counts : List ECRow) (m : Nat) : List Nat :=
  ((counts.filter (fun r => r.month = m)).map (fun r => r.date)).dedup

/-- The claim's day total: the sum of `employeeCount` across all
employers for one day of one month. -/
def specDaySum (counts : List ECRow) (m : Nat) (d : Nat) : Nat :=
  ((counts.filter (fun r => r.date = d ∧ r.month = m)).map
    (fun r => r.employeeCount)).sum

/-- The claim's average total employment: the mean over the month's days
of the day totals (zero when the month has no days in the table). -/
def specAvgTotalEmployment (counts : List ECRow) (m : Nat) : ℚ :=
  match specDaysOfMonth counts m with
  | [] => 0
  | ds => (((ds.map (specDaySum counts m)).sum : ℚ) / (ds.length : ℚ))

theorem dedup_filter {α : Type} [DecidableEq α] (p : α → Bool)
    (l : List α) : (l.dedup).filter p = (l.filter p).dedup := by
  induction l with
  | nil => rfl
  | cons a t ih =>
      by_cases hmem : a ∈ t
      · rw [List.dedup_cons_of_mem hmem]
        by_cases hp : p a
        · rw [List.filter_cons_of_pos hp,
            List.dedup_cons_of_mem (List.mem_filter.2 ⟨hmem, hp⟩), ih]
        · rw [List.filter_cons_of_neg hp, ih]
      · rw [List.dedup_cons_of_not_mem hmem]
        by_cases hp : p a
        · rw [List.filter_cons_of_pos hp, List.filter_cons_of_pos hp,
            List.dedup_cons_of_not_mem
              (fun hc => hmem (List.mem_of_mem_filter hc)), ih]
        · rw [List.filter_cons_of_neg hp, List.filter_cons_of_neg hp, ih]

theorem dedup_map_inj {α β : Type} [DecidableEq α] [DecidableEq β]
    (f : α → β) (hf : ∀ a b, f a = f b → a = b) (l : List α) :
    (l.map f).dedup = l.dedup.map f := by
  induction l with
  | nil => rfl
  | cons a t ih =>
      by_cases hmem : a ∈ t
      · rw [List.map_cons,
          List.dedup_cons_of_mem (List.mem_map_of_mem f hmem),
          List.dedup_cons_of_mem hmem, ih]
      · rw [List.map_cons, List.dedup_cons_of_not_mem (fun hc => ?_),
          List.dedup_cons_of_not_mem hmem, List.map_cons, ih]
        rcases List.mem_map.1 hc with ⟨b, hb, hba⟩
        exact hmem (hf b a hba ▸ hb)

theorem find?_map_keys {κ β : Type} [DecidableEq κ]
    (keys : List κ) (f : κ → β) (m : κ) :
    (keys.map (fun k => (k, f k))).find? (fun p => p.1 = m) =
      if m ∈ keys then some (m, f m) else none := by
  induction keys with
  | nil => rfl
  | cons a t ih =>
      rw [List.map_cons]
      by_cases h : a = m
      · subst h
        rw [List.find?_cons_of_pos _ (by simp)]
        rw [if_pos (List.mem_cons_self a t)]
      · rw [List.find?_cons_of_neg _ (by simp [h]), ih]
        by_cases hm : m ∈ t
        · rw [if_pos hm, if_pos (List.mem_cons_of_mem a hm)]
        · rw [if_neg hm, if_neg (fun hc => ?_)]
          rcases List.mem_cons.1 hc with h1 | h1
          · exact h h1.symm
          · exact hm h1

theorem cityDaily_filter_eq (counts : List ECRow) (m : Nat) :
    (cityDaily counts).filter (fun d => d.2.1 = m) =
      (specDaysOfMonth counts m).map
        (fun d => (d, m, cityDaySum counts (d, m))) := by
  unfold cityDaily
  rw [filter_map_comm]
  rw [List.filter_congr
    (fun (k : Nat × Nat) _ => (rfl : decide (k.2 = m) = decide (k.2 = m)))]
  rw [dedup_filter, filter_map_comm]
  rw [List.filter_congr
    (fun (r : ECRow) _ => (rfl : decide (r.month = m) = decide (r.month = m)))]
  have hmap : (counts.filter (fun r => r.month = m)).map
      (fun r => (r.date, r.month)) =
      ((counts.filter (fun r => r.month = m)).map (fun r => r.date)).map
        (fun d => (d, m)) := by
    rw [List.map_map]
    refine List.map_congr_left (fun r hr => ?_)
    have hrm : r.month = m := of_decide_eq_true (List.mem_filter.1 hr).2
    simp [hrm]
  rw [hmap, dedup_map_inj (fun (d : Nat) => (d, m))
    (fun a b hab => congrArg Prod.fst hab)
    ((counts.filter (fun r => r.month = m)).map (fun r => r.date)),
    List.map_map]
  rfl

theorem cityAvg_eq (counts : List ECRow) (m : Nat) :
    ((((cityMonthlyEmp counts).find? (fun p => p.1 = m)).map
      (fun p => p.2)).getD 0) = specAvgTotalEmployment counts m := by
  unfold cityMonthlyEmp
  rw [find?_map_keys]
  by_cases hm : m ∈ ((cityDaily counts).map (fun d => d.2.1)).dedup
  · rw [if_pos hm]
    have hdays : specDaysOfMonth counts m ≠ [] := by
      rcases List.mem_map.1 (List.mem_dedup.1 hm) with ⟨x, hx, hxm⟩
      have hxf : x ∈ (cityDaily counts).filter (fun d => d.2.1 = m) :=
        List.mem_filter.2 ⟨hx, by simp [hxm]⟩
      rw [cityDaily_filter_eq] at hxf
      rcases List.mem_map.1 hxf with ⟨d, hd, _⟩
      exact List.ne_nil_of_mem hd
    rw [cityDaily_filter_eq, List.map_map]
    unfold specAvgTotalEmployment
    rcases hds : specDaysOfMonth counts m with _ | ⟨d, ds⟩
    · exact absurd hds hdays
    · simp only [Option.getD_some, Option.map_some, List.length_map]
      rfl
  · rw [if_neg hm]
    unfold specAvgTotalEmployment
    rcases hds : specDaysOfMonth counts m with _ | ⟨d, ds⟩
    · rfl
    · exfalso
      have hd : d ∈ specDaysOfMonth counts m := by
        rw [hds]
        exact List.mem_cons_self _ _
      have hdm : (d, m, cityDaySum counts (d, m)) ∈
          (cityDaily counts).filter (fun x => x.2.1 = m) := by
        rw [cityDaily_filter_eq]
        exact List.mem_map_of_mem _ hd
      refine hm (List.mem_dedup.2 (List.mem_map.2
        ⟨(d, m, cityDaySum counts (d, m)),
          List.mem_of_mem_filter hdm, rfl⟩))

theorem cityHires_eq (turnover : List TRow) (m : Nat) :
    ((((cityMonthlyT turnover).find? (fun p => p.1 = m)).map
      (fun p => p.2.1)).getD 0) =
      ((turnover.filter (fun r => r.month = m)).map (fun r => r.hires)).sum := by
  unfold cityMonthlyT
  rw [find?_map_keys]
  by_cases hm : m ∈ (turnover.map (fun r => r.month)).dedup
  · rw [if_pos hm]
    rfl
  · rw [if_neg hm]
    have hrows : turnover.filter (fun r => r.month = m) = [] :=
      List.filter_eq_nil_iff.2 (fun r hr hrm =>
        hm (List.mem_dedup.2 (List.mem_map.2
          ⟨r, hr, of_decide_eq_true hrm⟩)))
    rw [hrows]
    rfl

theorem cityQuits_eq (turnover : List TRow) (m : Nat) :
    ((((cityMonthlyT turnover).find? (fun p => p.1 = m)).map
      (fun p => p.2.2)).getD 0) =
      ((turnover.filter (fun r => r.month = m)).map (fun r => r.quits)).sum := by
  unfold cityMonthlyT
  rw [find?_map_keys]
  by_cases hm : m ∈ (turnover.map (fun r => r.month)).dedup
  · rw [if_pos hm]
    rfl
  · rw [if_neg hm]
    have hrows : turnover.filter (fun r => r.month = m) = [] :=
      List.filter_eq_nil_iff.2 (fun r hr hrm =>
        hm (List.mem_dedup.2 (List.mem_map.2
          ⟨r, hr, of_decide_eq_true hrm⟩)))
    rw [hrows]
    rfl

/-- Claim C8: every row of the city roll-up has `avgTotalEmployment`
equal to the mean over the month's days of the daily sums of
`employeeCount` across employers, `totalHires` and `totalQuits` equal to
the month's sums over the turnover table, and `cityTurnoverRate` equal
to `(totalHires + totalQuits) / avgTotalEmployment`, resolving to `0.0`
when the average is `0`. -/
theorem spec_C8 (counts : List ECRow) (turnover : List TRow)
    (r : CityRow) (hr : r ∈ getCityMetrics counts turnover) :
    r.totalHires =
      ((turnover.filter (fun x => x.month = r.month)).map
        (fun x => x.hires)).sum ∧
    r.totalQuits =
      ((turnover.filter (fun x => x.month = r.month)).map
        (fun x => x.quits)).sum ∧
    r.avgTotalEmployment = specAvgTotalEmployment counts r.month ∧
    r.cityTurnoverRate = (if r.avgTotalEmployment = 0 then 0
      else ((r.totalHires : ℚ) + (r.totalQuits : ℚ)) /
        r.avgTotalEmployment) := by
  unfold getCityMetrics at hr
  rw [(List.perm_insertionSort _ _).mem_iff] at hr
  rcases List.mem_map.1 hr with ⟨m, hm, rfl⟩
  exact ⟨cityHires_eq turnover m, cityQuits_eq turnover m,
    cityAvg_eq counts m, rfl⟩

def w8counts : List ECRow :=
  [⟨0, 0, 10, 4⟩, ⟨0, 0, 20, 6⟩, ⟨1, 0, 10, 2⟩]

def w8turnover : List TRow := [⟨0, 10, 1, 0, 1, 1/8⟩, ⟨2, 20, 0, 1, -1, 0⟩]

theorem spec_C8_witness :
    (cityRow w8counts w8turnover 0).totalHires =
      ((w8turnover.filter (fun x => x.month = (cityRow w8counts w8turnover 0).month)).map
        (fun x => x.hires)).sum ∧
    (cityRow w8counts w8turnover 0).totalQuits =
      ((w8turnover.filter (fun x => x.month = (cityRow w8counts w8turnover 0).month)).map
        (fun x => x.quits)).sum ∧
    (cityRow w8counts w8turnover 0).avgTotalEmployment =
      specAvgTotalEmployment w8counts (cityRow w8counts w8turnover 0).month ∧
    (cityRow w8counts w8turnover 0).cityTurnoverRate =
      (if (cityRow w8counts w8turnover 0).avgTotalEmployment = 0 then 0
      else (((cityRow w8counts w8turnover 0).totalHires : ℚ) +
          ((cityRow w8counts w8turnover 0).totalQuits : ℚ)) /
        (cityRow w8counts w8turnover 0).avgTotalEmployment) :=
  spec_C8 w8counts w8turnover (cityRow w8counts w8turnover 0) (by
    unfold getCityMetrics
    rw [(List.perm_insertionSort _ _).mem_iff]
    refine List.mem_map.2 ⟨0, ?_, rfl⟩
    decide)

/-! ### Claim C10 -/

theorem dedupJobsAux_eq_self (raws : List RawJob) (seen : List Int)
    (hdisj : ∀ r ∈ raws, r.jobId ∉ seen)
    (hnd : (raws.map (fun r => r.jobId)).Nodup) :
    dedupJobsAux seen raws = raws := by
  induction raws generalizing seen with
  | nil => rfl
  | cons r t ih =>
      rw [List.map_cons, List.nodup_cons] at hnd
      show (if r.jobId ∈ seen then dedupJobsAux seen t
        else r :: dedupJobsAux (r.jobId :: seen) t) = r :: t
      rw [if_neg (hdisj r (List.mem_cons_self r t))]
      congr 1
      refine ih (r.jobId :: seen) (fun s hs hmem => ?_) hnd.2
      rcases List.mem_cons.1 hmem with h1 | h1
      · exact hnd.1 (h1 ▸ List.mem_map_of_mem _ hs)
      · exact hdisj s (List.mem_cons_of_mem r hs) h1

theorem loadJobs_eq_map (raws : List RawJob)
    (hnd : (raws.map (fun r => r.jobId)).Nodup) :
    loadJobs raws = raws.map
      (fun r => (⟨r.jobId, r.employerId, r.rateRaw.getD 0⟩ : Job)) := by
  unfold loadJobs
  rw [dedupJobsAux_eq_self raws []
    (fun r _ hmem => List.not_mem_nil _ hmem) hnd]

theorem sum_map_getD_filter (l : List (Option ℚ)) :
    ((l.filter (fun o => o.isSome)).map (fun o => o.getD 0)).sum =
      (l.map (fun o => o.getD 0)).sum := by
  induction l with
  | nil => rfl
  | cons o t ih =>
      rcases o with _ | x
      · rw [List.filter_cons_of_neg (by simp)]
        rw [ih]
        simp
      · rw [List.filter_cons_of_pos (by simp)]
        simp [ih]

theorem length_filter_lt_of_none (l : List (Option ℚ))
    (h : (none : Option ℚ) ∈ l) :
    (l.filter (fun o => o.isSome)).length < l.length := by
  induction l with
  | nil => cases h
  | cons o t ih =>
      rcases o with _ | x
      · rw [List.filter_cons_of_neg (by simp)]
        exact Nat.lt_succ_of_le (List.length_filter_le _ _)
      · rw [List.filter_cons_of_pos (by simp)]
        have h2 : (none : Option ℚ) ∈ t := by
          rcases List.mem_cons.1 h with h1 | h1
          · exact absurd h1 (by simp)
          · exact h1
        exact Nat.succ_lt_succ (ih h2)

theorem filter_swap {α : Type} (p q : α → Bool) (l : List α) :
    (l.filter p).filter q = (l.filter q).filter p := by
  induction l with
  | nil => rfl
  | cons a t ih =>
      by_cases hp : p a <;> by_cases hq : q a <;>
        simp [List.filter_cons, hp, hq, ih]

theorem avgHourlyRate_eq (jobs : List Job) (e : Int)
    (h : (jobs.filter (fun j => j.employerId = e)).map
      (fun j => j.hourlyRate) ≠ []) :
    avgHourlyRate jobs e =
      some ((((jobs.filter (fun j => j.employerId = e)).map
          (fun j => j.hourlyRate)).sum) /
        ((((jobs.filter (fun j => j.employerId = e)).map
          (fun j => j.hourlyRate)).length : ℚ))) := by
  unfold avgHourlyRate
  rcases hm : (jobs.filter (fun j => j.employerId = e)).map
      (fun j => j.hourlyRate) with _ | ⟨x, xs⟩
  · exact absurd hm h
  · rw [hm]

/-- Claim C10: a job whose `hourlyRate` cell is missing or non-numeric
is loaded with rate `0` and kept (not dropped, no error); consequently
it strictly lowers the employer's `avgHourlyRate` — and therefore the
`estimatedMonthlyPayroll = avgEmployeeCount * avgHourlyRate * 160` —
compared to excluding such jobs, whenever the employer also has a
positive-rate job and a positive average employee count. -/
theorem spec_C10 (raws : List RawJob) (e : Int) (r0 r1 : RawJob) (q : ℚ)
    (hnd : (raws.map (fun r => r.jobId)).Nodup)
    (h0 : r0 ∈ raws) (h0e : r0.employerId = e) (h0r : r0.rateRaw = none)
    (hpos : ∀ r ∈ raws, 0 ≤ r.rateRaw.getD 0)
    (h1 : r1 ∈ raws) (h1e : r1.employerId = e) (h1r : r1.rateRaw = some q)
    (hq : 0 < q) :
    (⟨r0.jobId, e, 0⟩ : Job) ∈ loadJobs raws ∧
    ∃ a b : ℚ,
      avgHourlyRate (loadJobs raws) e = some a ∧
      avgHourlyRate (loadJobs
        (raws.filter (fun r => r.rateRaw.isSome))) e = some b ∧
      a < b ∧
      ∀ (counts : List ECRow) (m : Nat) (c : ℚ),
        avgEmployeeCount counts m e = some c → 0 < c →
        estimatedMonthlyPayroll (loadJobs raws) counts m e =
          some (c * a * 160) ∧
        estimatedMonthlyPayroll (loadJobs
          (raws.filter (fun r => r.rateRaw.isSome))) counts m e =
          some (c * b * 160) ∧
        c * a * 160 < c * b * 160 := by
  have hload : loadJobs raws = raws.map
      (fun r => (⟨r.jobId, r.employerId, r.rateRaw.getD 0⟩ : Job)) :=
    loadJobs_eq_map raws hnd
  have hnd2 : ((raws.filter (fun r => r.rateRaw.isSome)).map
      (fun r => r.jobId)).Nodup :=
    ((List.filter_sublist raws).map _).nodup hnd
  have hload2 : loadJobs (raws.filter (fun r => r.rateRaw.isSome)) =
      (raws.filter (fun r => r.rateRaw.isSome)).map
        (fun r => (⟨r.jobId, r.employerId, r.rateRaw.getD 0⟩ : Job)) :=
    loadJobs_eq_map _ hnd2
  -- the employer's raw rows and raw rate cells
  have hrs : ((loadJobs raws).filter (fun j => j.employerId = e)).map
      (fun j => j.hourlyRate) =
      ((raws.filter (fun r => r.employerId = e)).map
        (fun r => r.rateRaw)).map (fun o => o.getD 0) := by
    rw [hload, filter_map_comm, List.map_map, List.map_map]
    exact List.map_congr_left (fun r _ => rfl)
  have hrs2 : ((loadJobs (raws.filter (fun r => r.rateRaw.isSome))).filter
      (fun j => j.employerId = e)).map (fun j => j.hourlyRate) =
      (((raws.filter (fun r => r.employerId = e)).map
        (fun r => r.rateRaw)).filter (fun o => o.isSome)).map
          (fun o => o.getD 0) := by
    rw [hload2]
    conv_lhs => rw [filter_map_comm, List.map_map, filter_swap]
    conv_rhs => rw [filter_map_comm, List.map_map]
    exact List.map_congr_left (fun r _ => rfl)
  set l := (raws.filter (fun r => r.employerId = e)).map
    (fun r => r.rateRaw) with hl
  have hr0f : r0 ∈ raws.filter (fun r => r.employerId = e) :=
    List.mem_filter.2 ⟨h0, by simp [h0e]⟩
  have hnone : (none : Option ℚ) ∈ l := by
    rw [hl, ← h0r]
    exact List.mem_map_of_mem _ hr0f
  have hr1f : r1 ∈ raws.filter (fun r => r.employerId = e) :=
    List.mem_filter.2 ⟨h1, by simp [h1e]⟩
  have hsomeq : (some q) ∈ l.filter (fun o => o.isSome) := by
    refine List.mem_filter.2 ⟨?_, by simp⟩
    rw [hl, ← h1r]
    exact List.mem_map_of_mem _ hr1f
  have hlen : (l.filter (fun o => o.isSome)).length < l.length :=
    length_filter_lt_of_none l hnone
  have hlen1 : 0 < (l.filter (fun o => o.isSome)).length :=
    List.length_pos.2 (List.ne_nil_of_mem hsomeq)
  have hpos_all : ∀ x ∈ (l.filter (fun o => o.isSome)).map
      (fun o => o.getD 0), 0 ≤ x := by
    intro x hx
    rcases List.mem_map.1 hx with ⟨o, ho, rfl⟩
    have ho2 : o ∈ l := List.mem_of_mem_filter ho
    rcases List.mem_map.1 ho2 with ⟨r, hr, rfl⟩
    exact hpos r (List.mem_of_mem_filter hr)
  have hqmem : q ∈ (l.filter (fun o => o.isSome)).map
      (fun o => o.getD 0) := List.mem_map.2 ⟨some q, hsomeq, rfl⟩
  have hsum_pos : 0 < ((l.filter (fun o => o.isSome)).map
      (fun o => o.getD 0)).sum :=
    lt_of_lt_of_le hq (List.single_le_sum hpos_all q hqmem)
  have hab : (((l.map (fun o => o.getD 0)).sum) /
      ((l.map (fun o => o.getD 0)).length : ℚ)) <
      ((((l.filter (fun o => o.isSome)).map (fun o => o.getD 0)).sum) /
        ((((l.filter (fun o => o.isSome)).map
          (fun o => o.getD 0)).length : ℚ))) := by
    rw [← sum_map_getD_filter l]
    refine div_lt_div_of_pos_left hsum_pos ?_ ?_
    · rw [List.length_map]
      exact Nat.cast_pos.2 hlen1
    · rw [List.length_map, List.length_map]
      exact Nat.cast_lt.2 hlen
  have hlne : l.map (fun o => o.getD 0) ≠ [] := by
    intro hc
    rw [List.map_eq_nil_iff] at hc
    rw [hc] at hnone
    cases hnone
  have hlne2 : (l.filter (fun o => o.isSome)).map
      (fun o => o.getD 0) ≠ [] :=
    List.ne_nil_of_mem hqmem
  have hav1 : avgHourlyRate (loadJobs raws) e =
      some (((l.map (fun o => o.getD 0)).sum) /
        ((l.map (fun o => o.getD 0)).length : ℚ)) := by
    rw [avgHourlyRate_eq _ _ (by rw [hrs]; exact hlne)]
    rw [hrs]
  have hav2 : avgHourlyRate (loadJobs
      (raws.filter (fun r => r.rateRaw.isSome))) e =
      some ((((l.filter (fun o => o.isSome)).map
          (fun o => o.getD 0)).sum) /
        ((((l.filter (fun o => o.isSome)).map
          (fun o => o.getD 0)).length : ℚ))) := by
    rw [avgHourlyRate_eq _ _ (by rw [hrs2]; exact hlne2)]
    rw [hrs2]
  refine ⟨?_, _, _, hav1, hav2, hab, ?_⟩
  · rw [hload]
    refine List.mem_map.2 ⟨r0, h0, ?_⟩
    rw [h0e, h0r]
    rfl
  · intro counts m c hc hcpos
    unfold estimatedMonthlyPayroll
    rw [hc, hav1, hav2]
    refine ⟨rfl, rfl, ?_⟩
    refine mul_lt_mul_of_pos_right (mul_lt_mul_of_pos_left hab hcpos) ?_
    norm_num

def w10raws : List RawJob := [⟨1, 5, none⟩, ⟨2, 5, some 10⟩]

theorem spec_C10_witness :
    (⟨(1 : Int), (5 : Int), (0 : ℚ)⟩ : Job) ∈ loadJobs w10raws ∧
    ∃ a b : ℚ,
      avgHourlyRate (loadJobs w10raws) 5 = some a ∧
      avgHourlyRate (loadJobs
        (w10raws.filter (fun r => r.rateRaw.isSome))) 5 = some b ∧
      a < b ∧
      ∀ (counts : List ECRow) (m : Nat) (c : ℚ),
        avgEmployeeCount counts m 5 = some c → 0 < c →
        estimatedMonthlyPayroll (loadJobs w10raws) counts m 5 =
          some (c * a * 160) ∧
        estimatedMonthlyPayroll (loadJobs
          (w10raws.filter (fun r => r.rateRaw.isSome))) counts m 5 =
          some (c * b * 160) ∧
        c * a * 160 < c * b * 160 :=
  spec_C10 w10raws 5 ⟨1, 5, none⟩ ⟨2, 5, some 10⟩ 10 (by decide)
    (by decide) rfl rfl
    (by decide)
    (by decide) rfl rfl (by norm_num)

end EmployerService
